import Mathlib

/-!
Verification development for the incremental replay-extraction state machine of
`src/python/extract_replays.py`.

The Python module is embedded shallowly:
* machine integers are `Nat`/`Int` (Unix epoch `uploadtime` values are naturals);
* the persisted progress record (`state.json`) is an association list from keys
  (`format` and `format ++ "_oldest"`) to timestamps, with Python `dict`
  assignment modelled as prepending the fresh binding and `dict.get` as the
  first matching lookup;
* the network is an explicit oracle: page fetches are a function from the wire
  request to `Except Unit ApiData`, and per-replay downloads are a success
  oracle `String → Bool` (mirroring `download_replay`'s boolean contract);
* Python truthiness tests on optional integers (`if before_ts:`,
  `if reference_ts and ...:`, `if not new_reference_ts ...`) are modelled by
  `truthyOptNat`, which is false exactly on `none` and `some 0`.
-/

/-- One listing entry: a replay search result carrying its id and integer
`uploadtime` (Unix epoch seconds, hence a natural number). -/
structure Item where
  id : String
  uploadtime : Nat
  deriving DecidableEq, Repr, Inhabited

/-- The `direction` argument of `extract_replays`. -/
inductive Direction where
  | newer
  | older
  deriving DecidableEq, Repr

/-- A proleptic-Gregorian calendar date, the value formatted as `YYYY-MM-DD`
by `strftime` when building partition directories. -/
structure Date where
  year : Int
  month : Nat
  day : Nat
  deriving DecidableEq, Repr

/-- Civil-calendar date of a day count relative to 1970-01-01 (Howard Hinnant's
`civil_from_days` algorithm, as performed inside Python's `datetime`). -/
def civilFromDays (z : Int) : Date :=
  let z' := z + 719468
  let era : Int := z'.fdiv 146097
  let doe : Nat := (z' - era * 146097).toNat
  let yoe : Nat := (doe - doe / 1460 + doe / 36524 - doe / 146096) / 365
  let y : Int := (yoe : Int) + era * 400
  let doy : Nat := doe - (365 * yoe + yoe / 4 - yoe / 100)
  let mp : Nat := (5 * doy + 2) / 153
  let d : Nat := doy - (153 * mp + 2) / 5 + 1
  let m : Nat := if mp < 10 then mp + 3 else mp - 9
  { year := if m ≤ 2 then y + 1 else y, month := m, day := d }

/-- `datetime.fromtimestamp(ts).strftime("%Y-%m-%d")` (line 359): the calendar
date of `ts` in the host's local timezone, whose UTC offset in effect at that
instant is `off` seconds east of UTC. -/
def pythonFromtimestampDate (off : Int) (ts : Nat) : Date :=
  civilFromDays (((ts : Int) + off).fdiv 86400)

/-- The date the spec prescribes for an item: calendar-date truncation of
`uploadtime` in UTC (spec §3, "Partition Path").  Stated from the spec's words
so it can be compared with `pythonFromtimestampDate`. -/
def utcDateOf (ts : Nat) : Date :=
  civilFromDays ((ts : Int).fdiv 86400)

/-- The progress record held in `state.json`: keys are format ids and
`format ++ "_oldest"` strings, values are epoch timestamps. -/
abbrev State := List (String × Nat)

/-- `state.get(key)` / `key in state`. -/
def lookupState (state : State) (key : String) : Option Nat :=
  List.lookup key state

/-- `state[key] = value` (dict assignment: the fresh binding shadows any older
one under `lookupState`). -/
def insertState (state : State) (key : String) (value : Nat) : State :=
  (key, value) :: state

/-- Python truthiness of an optional integer: `None` and `0` are falsy. -/
def truthyOptNat : Option Nat → Bool
  | none => false
  | some v => v != 0

/-- The possible outcomes of reading `state.json` in `load_state`
(lines 80-93): the file may be absent, present but not valid JSON
(`json.JSONDecodeError`), unreadable for any other reason (the generic
`except Exception` arm), or parsed successfully. -/
inductive StateFileRead where
  | missing
  | undecodable
  | unreadable
  | parsed (record : State)

/-- `load_state` (lines 80-93): returns the parsed record, and the empty record
in every failure case; it is a total function (no failure is re-raised). -/
def load_state : StateFileRead → State
  | .missing => []
  | .undecodable => []
  | .unreadable => []
  | .parsed record => record

/-- `find_oldest_timestamp` (lines 106-190): first consult the persisted state
for `format_id ++ "_oldest"`; otherwise scan the replay directory tree, an
effect abstracted as the oracle `scan` (it yields the minimum `uploadtime`
among the readable item files of the earliest date partition, or `none` when
no usable replay exists).  `diskState` is the record `load_state()` reads from
disk at that moment. -/
def find_oldest_timestamp (diskState : State) (scan : String → Option Nat)
    (format_id : String) : Option Nat :=
  match lookupState diskState (format_id ++ "_oldest") with
  | some v => some v
  | none => scan format_id

/-- `update_state_for_format` (lines 457-478).  A falsy (`None` or `0`)
`new_reference_ts` is ignored; the `newer` key is overwritten only when absent
or strictly exceeded; the `_oldest` key only when absent or strictly
undercut (the `float('inf')` default of line 476 is consulted only when the
key is present, so it reduces to the stored value). -/
def update_state_for_format (state : State) (format_id : String)
    (direction : Direction) (new_reference_ts : Option Nat) : State :=
  if !truthyOptNat new_reference_ts then state
  else
    let ts := new_reference_ts.getD 0
    match direction with
    | .newer =>
      if (lookupState state format_id).isNone
          || ts > (lookupState state format_id).getD 0 then
        insertState state format_id ts
      else state
    | .older =>
      match lookupState state (format_id ++ "_oldest") with
      | none => insertState state (format_id ++ "_oldest") ts
      | some v => if ts < v then insertState state (format_id ++ "_oldest") ts else state

/-- A wire request to `search.json`. -/
structure Request where
  format : String
  before : Option Nat
  deriving DecidableEq, Repr

/-- The query-parameter construction of `fetch_replay_page` (lines 55-57):
`before` is attached only when `before_ts` is truthy, so `before_ts = 0`
issues an unbounded request exactly like `before_ts = None`. -/
def fetch_replay_page_params (format_id : String) (before_ts : Option Nat) : Request :=
  { format := format_id
    before :=
      match before_ts with
      | none => none
      | some b => if b != 0 then some b else none }

/-- A decoded `search.json` body: either a flat list of items or an object
wrapping the list under a `replays` field (line 343 handles both shapes). -/
inductive ApiData where
  | flat (items : List Item)
  | wrapped (replays : Option (List Item))

/-- `data if isinstance(data, list) else data.get("replays", [])` (line 343). -/
def normalizeData : ApiData → List Item
  | .flat items => items
  | .wrapped replays => replays.getD []

/-- The remote listing endpoint as the spec describes it (§4.2, §6): a fixed
item list `L`, served newest-first; an unbounded request returns the first
full page, a `before = b` request restricts to items with `uploadtime ≤ b`.
This is the environment model used by claims that quantify over "the remote
listing returns the same items". -/
def listingServer (L : List Item) (req : Request) : Except Unit ApiData :=
  .ok (.flat (match req.before with
    | none => L.take 51
    | some b => (L.filter (fun x => x.uploadtime ≤ b)).take 51))

/-- The accumulator mutated by the per-item classification loop of
`extract_replays` (lines 355-381).  `processedItems` is a ghost field
recording, newest binding first, exactly the items for which line 360 ran. -/
structure PageAcc where
  new_reference_ts : Option Nat
  format_state_updated : Bool
  new_replay_ids : List String
  replay_dates : List (String × Date)
  processedItems : List Item
  done : Bool
  deriving Repr

/-- The accumulator state at line 338: empty queues, `done = False`,
`format_state_updated = False`, `new_reference_ts` as initialised by the
reference-selection block (lines 314-330). -/
def initAcc (new_reference_ts : Option Nat) : PageAcc :=
  { new_reference_ts := new_reference_ts
    format_state_updated := false
    new_replay_ids := []
    replay_dates := []
    processedItems := []
    done := false }

/-- `if reference_ts and r_time <= reference_ts:` (line 364): the
newer-direction stop fires only for a truthy reference. -/
def seenStop (reference_ts : Option Nat) (r_time : Nat) : Bool :=
  match reference_ts with
  | none => false
  | some v => v != 0 && r_time ≤ v

/-- `if not new_reference_ts or r_time > new_reference_ts:` (lines 370-372). -/
def newerTrackStep (acc : PageAcc) (r_time : Nat) : PageAcc :=
  match acc.new_reference_ts with
  | none => { acc with new_reference_ts := some r_time, format_state_updated := true }
  | some v =>
    if v = 0 then { acc with new_reference_ts := some r_time, format_state_updated := true }
    else if r_time > v then { acc with new_reference_ts := some r_time, format_state_updated := true }
    else acc

/-- `if not new_reference_ts or r_time < new_reference_ts:` (lines 376-378). -/
def olderTrackStep (acc : PageAcc) (r_time : Nat) : PageAcc :=
  match acc.new_reference_ts with
  | none => { acc with new_reference_ts := some r_time, format_state_updated := true }
  | some v =>
    if v = 0 then { acc with new_reference_ts := some r_time, format_state_updated := true }
    else if r_time < v then { acc with new_reference_ts := some r_time, format_state_updated := true }
    else acc

/-- The `for rep in replays:` classification loop (lines 355-381): record the
item's partition date, then in the `newer` direction stop at the first item at
or below the reference (the stopping item is dated but not queued), otherwise
track the candidate watermark and queue the item's id. -/
def classifyPage (direction : Direction) (reference_ts : Option Nat) (off : Int) :
    List Item → PageAcc → PageAcc
  | [], acc => acc
  | rep :: rest, acc =>
    let acc1 : PageAcc :=
      { acc with
        replay_dates := (rep.id, pythonFromtimestampDate off rep.uploadtime) :: acc.replay_dates
        processedItems := rep :: acc.processedItems }
    match direction with
    | .newer =>
      if seenStop reference_ts rep.uploadtime then
        { acc1 with done := true }
      else
        let acc2 := newerTrackStep acc1 rep.uploadtime
        classifyPage direction reference_ts off rest
          { acc2 with new_replay_ids := acc2.new_replay_ids ++ [rep.id] }
    | .older =>
      let acc2 := olderTrackStep acc1 rep.uploadtime
      classifyPage direction reference_ts off rest
        { acc2 with new_replay_ids := acc2.new_replay_ids ++ [rep.id] }

/-- Result of the pagination loop: the final accumulator, the count of pages
whose fetch raised (each increments `stats["errors"]`, line 414), and the
wire requests issued, in order. -/
structure LoopOut where
  acc : PageAcc
  fetchErrors : Nat
  requests : List Request
  deriving Repr

/-- The `while page < max_pages and not done:` pagination loop
(lines 339-415), normal control flow (no operator interrupt).  The fuel is the
number of loop iterations still allowed by `max_pages`; a fetch error breaks
out of the loop after counting one error; an empty page breaks (line 353); a
classified page ends the loop when it set `done` or held fewer than 51 items
(line 384); otherwise the cursor moves to the last item's `uploadtime`
(line 388) and the loop continues. -/
def pageLoop (server : Request → Except Unit ApiData) (fmt : String)
    (direction : Direction) (reference_ts : Option Nat) (off : Int) :
    Nat → Option Nat → PageAcc → LoopOut
  | 0, _, acc => ⟨acc, 0, []⟩
  | fuel + 1, before_ts, acc =>
    if acc.done then ⟨acc, 0, []⟩
    else
      let req := fetch_replay_page_params fmt before_ts
      match server req with
      | .error _ => ⟨acc, 1, [req]⟩
      | .ok data =>
        let replays := normalizeData data
        if replays.isEmpty then ⟨acc, 0, [req]⟩
        else
          let acc2 := classifyPage direction reference_ts off replays acc
          if acc2.done || replays.length < 51 then ⟨acc2, 0, [req]⟩
          else
            let before2 := some ((replays.getLastD default).uploadtime)
            let rest := pageLoop server fmt direction reference_ts off fuel before2 acc2
            ⟨rest.acc, rest.fetchErrors, req :: rest.requests⟩

/-- The statistics dictionary of `batch_download_replays` (line 249). -/
structure DlStats where
  downloaded : Nat
  errors : Nat
  deriving DecidableEq, Repr

/-- `batch_download_replays` (lines 236-285): each queued id is attempted once
against the download oracle `dl`; successes and failures are counted.  (The
Python groups the ids by partition date before downloading; that reorders the
attempts, but each id is still attempted exactly once, so the counters are
unchanged by the grouping.) -/
def batch_download_replays (dl : String → Bool) : List String → DlStats
  | [] => ⟨0, 0⟩
  | rid :: rest =>
    let s := batch_download_replays dl rest
    if dl rid then ⟨s.downloaded + 1, s.errors⟩ else ⟨s.downloaded, s.errors + 1⟩

/-- Everything `extract_replays` derives for one format: the updated progress
record, the value of the (mutable) `direction` variable when the format's
iteration ends, the download counters, the queued ids, the recorded partition
dates, and the wire requests issued. -/
structure FormatResult where
  state : State
  direction : Direction
  downloaded : Nat
  downloadErrors : Nat
  fetchErrors : Nat
  queued : List String
  replay_dates : List (String × Date)
  requests : List Request

/-- Lines 332-436 for one format, after reference selection: run the
pagination loop (`before_ts` starts at the reference only for `older`,
line 333), download the queued batch, then commit the candidate watermark —
unconditionally for `newer`, only after at least one successful download for
`older` (lines 425-436). -/
def runFormatCore (server : Request → Except Unit ApiData) (dl : String → Bool)
    (off : Int) (state : State) (fmt : String) (direction : Direction)
    (reference_ts new_ref0 : Option Nat) (max_pages : Nat) : FormatResult :=
  let before0 : Option Nat := match direction with | .older => reference_ts | .newer => none
  let out := pageLoop server fmt direction reference_ts off max_pages before0 (initAcc new_ref0)
  let ds := batch_download_replays dl out.acc.new_replay_ids
  { state :=
      if out.acc.format_state_updated then
        match direction with
        | .older =>
          if ds.downloaded > 0 then
            update_state_for_format state fmt .older out.acc.new_reference_ts
          else state
        | .newer => update_state_for_format state fmt .newer out.acc.new_reference_ts
      else state
    direction := direction
    downloaded := ds.downloaded
    downloadErrors := ds.errors
    fetchErrors := out.fetchErrors
    queued := out.acc.new_replay_ids
    replay_dates := out.acc.replay_dates
    requests := out.requests }

/-- One iteration of the `for fmt in formats:` loop (lines 305-451), normal
control flow.  Reference selection (lines 314-330): `newer` reads the stored
newest watermark and also seeds `new_reference_ts` with it; `older` consults
`find_oldest_timestamp` (against the on-disk record `diskState`), and when
that reference is falsy the *shared* `direction` variable is reassigned to
`newer` (line 328) with an absent reference — the returned `direction` field
is that possibly-mutated value, which the caller feeds to the next format. -/
def processFormat (server : Request → Except Unit ApiData) (dl : String → Bool)
    (scan : String → Option Nat) (diskState : State) (off : Int)
    (state : State) (fmt : String) (direction : Direction) (max_pages : Nat) :
    FormatResult :=
  match direction with
  | .newer =>
    runFormatCore server dl off state fmt .newer (lookupState state fmt)
      (lookupState state fmt) max_pages
  | .older =>
    if truthyOptNat (find_oldest_timestamp diskState scan fmt) then
      runFormatCore server dl off state fmt .older
        (find_oldest_timestamp diskState scan fmt) none max_pages
    else
      runFormatCore server dl off state fmt .newer none none max_pages

/-- The per-run statistics dictionary of `extract_replays` (line 303). -/
structure ExtractStats where
  formats_processed : Nat
  replays_downloaded : Nat
  errors : Nat
  deriving DecidableEq, Repr

/-- The outcome of a whole multi-format run: final in-memory progress record,
run statistics, and the per-format results in processing order. -/
structure ExtractResult where
  state : State
  stats : ExtractStats
  results : List FormatResult

/-- The format loop of `extract_replays`: threads the in-memory `state`, the
mutable `direction` variable, and the statistics through the formats. -/
def extractGo (server : Request → Except Unit ApiData) (dl : String → Bool)
    (scan : String → Option Nat) (diskState : State) (off : Int) (max_pages : Nat) :
    List String → State → Direction → ExtractStats → ExtractResult
  | [], state, _, stats => ⟨state, stats, []⟩
  | fmt :: rest, state, direction, stats =>
    let r := processFormat server dl scan diskState off state fmt direction max_pages
    let stats' : ExtractStats :=
      ⟨stats.formats_processed + 1, stats.replays_downloaded + r.downloaded,
        stats.errors + r.fetchErrors + r.downloadErrors⟩
    let out := extractGo server dl scan diskState off max_pages rest r.state r.direction stats'
    ⟨out.state, out.stats, r :: out.results⟩

/-- `extract_replays` (lines 287-455), normal control flow: load the state
(here: `state0`, which is also what `find_oldest_timestamp`'s own
`load_state()` re-reads from disk mid-run, since the normal path saves only at
the end), process every format, and return the final record and statistics. -/
def extract_replays (server : Request → Except Unit ApiData) (dl : String → Bool)
    (scan : String → Option Nat) (off : Int) (formats : List String)
    (direction : Direction) (max_pages : Nat) (state0 : State) : ExtractResult :=
  extractGo server dl scan state0 off max_pages formats state0 direction ⟨0, 0, 0⟩

/-! ### Helper lemmas about the progress record -/

theorem lookupState_insert_self (state : State) (key : String) (value : Nat) :
    lookupState (insertState state key value) key = some value := by
  simp [lookupState, insertState, List.lookup]

theorem lookupState_insert_ne (state : State) (key other : String) (value : Nat)
    (h : other ≠ key) :
    lookupState (insertState state key value) other = lookupState state other := by
  have hb : (other == key) = false := beq_eq_false_iff_ne.mpr h
  simp [lookupState, insertState, List.lookup, hb]

theorem oldest_key_ne (format_id : String) : format_id ++ "_oldest" ≠ format_id := by
  intro h
  have hlen := congrArg String.length h
  simp [String.length_append] at hlen
  exact absurd hlen (by decide)

/-! ### Helper lemmas about the download batch -/

theorem batch_download_sum (dl : String → Bool) (ids : List String) :
    (batch_download_replays dl ids).downloaded + (batch_download_replays dl ids).errors
      = ids.length := by
  induction ids with
  | nil => rfl
  | cons rid rest ih =>
    by_cases h : dl rid = true <;> simp [batch_download_replays, h] <;> omega

theorem batch_download_all_fail (dl : String → Bool) (hdl : ∀ rid, dl rid = false)
    (ids : List String) : (batch_download_replays dl ids).downloaded = 0 := by
  induction ids with
  | nil => rfl
  | cons rid rest ih => simp [batch_download_replays, hdl rid, ih]

/-! ### Field-preservation lemmas for the per-item tracking steps -/

theorem newerTrackStep_ids (acc : PageAcc) (t : Nat) :
    (newerTrackStep acc t).new_replay_ids = acc.new_replay_ids := by
  cases hn : acc.new_reference_ts <;> simp [newerTrackStep, hn] <;> split_ifs <;> rfl

theorem newerTrackStep_done (acc : PageAcc) (t : Nat) :
    (newerTrackStep acc t).done = acc.done := by
  cases hn : acc.new_reference_ts <;> simp [newerTrackStep, hn] <;> split_ifs <;> rfl

theorem newerTrackStep_dates (acc : PageAcc) (t : Nat) :
    (newerTrackStep acc t).replay_dates = acc.replay_dates := by
  cases hn : acc.new_reference_ts <;> simp [newerTrackStep, hn] <;> split_ifs <;> rfl

theorem newerTrackStep_processed (acc : PageAcc) (t : Nat) :
    (newerTrackStep acc t).processedItems = acc.processedItems := by
  cases hn : acc.new_reference_ts <;> simp [newerTrackStep, hn] <;> split_ifs <;> rfl

theorem olderTrackStep_ids (acc : PageAcc) (t : Nat) :
    (olderTrackStep acc t).new_replay_ids = acc.new_replay_ids := by
  cases hn : acc.new_reference_ts <;> simp [olderTrackStep, hn] <;> split_ifs <;> rfl

theorem olderTrackStep_done (acc : PageAcc) (t : Nat) :
    (olderTrackStep acc t).done = acc.done := by
  cases hn : acc.new_reference_ts <;> simp [olderTrackStep, hn] <;> split_ifs <;> rfl

theorem olderTrackStep_dates (acc : PageAcc) (t : Nat) :
    (olderTrackStep acc t).replay_dates = acc.replay_dates := by
  cases hn : acc.new_reference_ts <;> simp [olderTrackStep, hn] <;> split_ifs <;> rfl

theorem olderTrackStep_processed (acc : PageAcc) (t : Nat) :
    (olderTrackStep acc t).processedItems = acc.processedItems := by
  cases hn : acc.new_reference_ts <;> simp [olderTrackStep, hn] <;> split_ifs <;> rfl

/-- With a stored reference of `0` the newer-direction stop can never fire
(line 364 tests truthiness), so every item of the page is queued and `done`
is left untouched. -/
theorem classifyPage_zero_ref (off : Int) :
    ∀ (l : List Item) (acc : PageAcc),
      (classifyPage .newer (some 0) off l acc).new_replay_ids
          = acc.new_replay_ids ++ l.map Item.id ∧
      (classifyPage .newer (some 0) off l acc).done = acc.done := by
  intro l
  induction l with
  | nil => intro acc; simp [classifyPage]
  | cons rep rest ih =>
    intro acc
    have hstop : seenStop (some 0) rep.uploadtime = false := by simp [seenStop]
    simp only [classifyPage, hstop, Bool.false_eq_true, if_false]
    rcases ih _ with ⟨h1, h2⟩
    rw [h1, h2]
    simp [newerTrackStep_ids, newerTrackStep_done]

/-- Characterisation of the newer-direction classification against a truthy
reference `T`: the queued ids are exactly the ids of the longest prefix of the
page strictly above `T`, and `done` is set exactly when the page holds an item
at or below `T` (the stop of lines 364-368 fires at the first such item). -/
theorem classifyPage_newer_char (off : Int) (T : Nat) (hT : T ≠ 0) :
    ∀ (l : List Item) (acc : PageAcc), acc.done = false →
      (classifyPage .newer (some T) off l acc).new_replay_ids
          = acc.new_replay_ids ++ (l.takeWhile (fun r => T < r.uploadtime)).map Item.id ∧
      (classifyPage .newer (some T) off l acc).done
          = l.any (fun r => r.uploadtime ≤ T) := by
  intro l
  induction l with
  | nil => intro acc hd; simp [classifyPage, hd]
  | cons rep rest ih =>
    intro acc hd
    by_cases hle : rep.uploadtime ≤ T
    · have hstop : seenStop (some T) rep.uploadtime = true := by
        simp [seenStop, hT, hle]
      have hpred : ¬ (T < rep.uploadtime) := Nat.not_lt.mpr hle
      simp only [classifyPage, hstop, if_true]
      refine ⟨?_, ?_⟩
      · simp [List.takeWhile_cons, hpred]
      · simp [hle]
    · have hstop : seenStop (some T) rep.uploadtime = false := by
        simp [seenStop, hle]
      have hlt : T < rep.uploadtime := Nat.lt_of_not_le hle
      simp only [classifyPage, hstop, Bool.false_eq_true, if_false]
      have hd' : (let acc1 : PageAcc :=
          { acc with
            replay_dates := (rep.id, pythonFromtimestampDate off rep.uploadtime) :: acc.replay_dates
            processedItems := rep :: acc.processedItems }
          let acc2 := newerTrackStep acc1 rep.uploadtime
          ({ acc2 with new_replay_ids := acc2.new_replay_ids ++ [rep.id] } : PageAcc)).done = false := by
        simp [newerTrackStep_done, hd]
      rcases ih _ hd' with ⟨h1, h2⟩
      refine ⟨?_, ?_⟩
      · rw [h1]
        simp [newerTrackStep_ids, List.takeWhile_cons, hlt, List.append_assoc]
      · rw [h2]
        simp [hle]

/-- One successful iteration of the pagination loop, unfolded. -/
theorem pageLoop_succ_ok (server : Request → Except Unit ApiData) (fmt : String)
    (dir : Direction) (ref : Option Nat) (off : Int) (before : Option Nat)
    (acc : PageAcc) (f : Nat) (data : ApiData)
    (hdone : acc.done = false)
    (hsrv : server (fetch_replay_page_params fmt before) = Except.ok data) :
    pageLoop server fmt dir ref off (f + 1) before acc =
      (if (normalizeData data).isEmpty then
        ⟨acc, 0, [fetch_replay_page_params fmt before]⟩
       else if (classifyPage dir ref off (normalizeData data) acc).done
            || (normalizeData data).length < 51 then
        ⟨classifyPage dir ref off (normalizeData data) acc, 0,
          [fetch_replay_page_params fmt before]⟩
       else
        let rest := pageLoop server fmt dir ref off f
          (some (((normalizeData data).getLastD default).uploadtime))
          (classifyPage dir ref off (normalizeData data) acc)
        ⟨rest.acc, rest.fetchErrors, fetch_replay_page_params fmt before :: rest.requests⟩) := by
  simp only [pageLoop, hdone, Bool.false_eq_true, if_false]
  rw [hsrv]

/-- One failing iteration of the pagination loop: the loop breaks, keeps the
accumulator (queued ids included), and counts one error (lines 411-415). -/
theorem pageLoop_succ_error (server : Request → Except Unit ApiData) (fmt : String)
    (dir : Direction) (ref : Option Nat) (off : Int) (before : Option Nat)
    (acc : PageAcc) (f : Nat) (e : Unit)
    (hdone : acc.done = false)
    (hsrv : server (fetch_replay_page_params fmt before) = Except.error e) :
    pageLoop server fmt dir ref off (f + 1) before acc
      = ⟨acc, 1, [fetch_replay_page_params fmt before]⟩ := by
  simp only [pageLoop, hdone, Bool.false_eq_true, if_false]
  rw [hsrv]

/-- The format loop always processes every format: `formats_processed` counts
one per format regardless of any per-format errors. -/
theorem extractGo_formats_processed (server : Request → Except Unit ApiData)
    (dl : String → Bool) (scan : String → Option Nat) (disk : State) (off : Int)
    (mp : Nat) :
    ∀ (l : List String) (state : State) (dir : Direction) (stats : ExtractStats),
      (extractGo server dl scan disk off mp l state dir stats).stats.formats_processed
        = stats.formats_processed + l.length := by
  intro l
  induction l with
  | nil => intro state dir stats; simp [extractGo]
  | cons fmt rest ih =>
    intro state dir stats
    simp only [extractGo]
    rw [ih]
    simp
    omega

/-- Every queued id is attempted exactly once in the download phase. -/
theorem runFormatCore_download_total (server : Request → Except Unit ApiData)
    (dl : String → Bool) (off : Int) (state : State) (fmt : String)
    (dir : Direction) (ref nr : Option Nat) (mp : Nat) :
    (runFormatCore server dl off state fmt dir ref nr mp).downloaded
        + (runFormatCore server dl off state fmt dir ref nr mp).downloadErrors
      = (runFormatCore server dl off state fmt dir ref nr mp).queued.length := by
  simp only [runFormatCore]
  exact batch_download_sum dl _

theorem processFormat_download_total (server : Request → Except Unit ApiData)
    (dl : String → Bool) (scan : String → Option Nat) (disk : State) (off : Int)
    (state : State) (fmt : String) (dir : Direction) (mp : Nat) :
    (processFormat server dl scan disk off state fmt dir mp).downloaded
        + (processFormat server dl scan disk off state fmt dir mp).downloadErrors
      = (processFormat server dl scan disk off state fmt dir mp).queued.length := by
  cases dir with
  | newer => exact runFormatCore_download_total server dl off state fmt .newer _ _ mp
  | older =>
    simp only [processFormat]
    split_ifs
    · exact runFormatCore_download_total server dl off state fmt .older _ _ mp
    · exact runFormatCore_download_total server dl off state fmt .newer _ _ mp

/-- Claim C9: `load_state` returns the empty record whenever the persisted
state file is missing, cannot be decoded, or cannot be read; it is a total
function, so no failure case raises. -/
theorem c9_load_state_empty_on_failure :
    load_state .missing = [] ∧ load_state .undecodable = [] ∧
    load_state .unreadable = [] ∧ ∀ record, load_state (.parsed record) = record :=
  ⟨rfl, rfl, rfl, fun _ => rfl⟩

/-- Claim C10: a stored watermark equal to `0` is indistinguishable from an
absent one — `fetch_replay_page` called with `before_ts = 0` issues the very
request it issues for `before_ts = None` (no `before` parameter), and a newer
run whose reference is `0` never fires the seen-watermark stop and queues
every fetched item, because both checks test truthiness. -/
theorem c10_zero_watermark_is_absent (fmt : String) (off : Int) :
    (fetch_replay_page_params fmt (some 0)).before = none ∧
    fetch_replay_page_params fmt (some 0) = fetch_replay_page_params fmt none ∧
    ∀ l : List Item,
      (classifyPage .newer (some 0) off l (initAcc (some 0))).new_replay_ids
          = l.map Item.id ∧
      (classifyPage .newer (some 0) off l (initAcc (some 0))).done = false := by
  refine ⟨rfl, rfl, fun l => ?_⟩
  have h := classifyPage_zero_ref off l (initAcc (some 0))
  simpa [initAcc] using h

/-- Claim C7 (documenting a code bug): the `older → newer` fallback of
line 328 reassigns the `direction` variable shared by the whole format loop,
so after one format falls back, every later format of the run is processed in
the `newer` direction as well.  Concrete run: formats `["alpha", "beta"]`,
direction `older`, persisted state `{"beta_oldest": 500}`, no scannable
replays, empty listing.  `beta` has an oldest watermark and should be paged in
the `older` direction bounded by `before = 500`; instead the run processes it
as `newer` with an unbounded request. -/
theorem c7_direction_fallback_leaks :
    ((extract_replays (fun _ => Except.ok (ApiData.flat [])) (fun _ => true)
        (fun _ => none) 0 ["alpha", "beta"] .older 55
        [("beta_oldest", 500)]).results.map (fun r => r.direction))
      = [Direction.newer, Direction.newer] ∧
    ((extract_replays (fun _ => Except.ok (ApiData.flat [])) (fun _ => true)
        (fun _ => none) 0 ["alpha", "beta"] .older 55
        [("beta_oldest", 500)]).results.map (fun r => r.requests))
      = [[{ format := "alpha", before := none }], [{ format := "beta", before := none }]] :=
  ⟨rfl, rfl⟩

/-- Claim C4: a fetched page with fewer than 51 items ends the category's
pagination loop immediately after classifying that page — exactly one request
is issued — and the outcome does not consult the remaining `max_pages`
budget: it is the same for every positive fuel. -/
theorem c4_short_page_ends_pagination (server : Request → Except Unit ApiData)
    (fmt : String) (dir : Direction) (ref : Option Nat) (off : Int)
    (before : Option Nat) (acc : PageAcc) (data : ApiData) (f : Nat)
    (hdone : acc.done = false)
    (hsrv : server (fetch_replay_page_params fmt before) = Except.ok data)
    (hshort : (normalizeData data).length < 51) :
    (pageLoop server fmt dir ref off (f + 1) before acc).requests
        = [fetch_replay_page_params fmt before] ∧
    ∀ g : Nat, pageLoop server fmt dir ref off (f + 1) before acc
        = pageLoop server fmt dir ref off (g + 1) before acc := by
  have key : ∀ g : Nat, pageLoop server fmt dir ref off (g + 1) before acc =
      (if (normalizeData data).isEmpty then
        ⟨acc, 0, [fetch_replay_page_params fmt before]⟩
       else
        ⟨classifyPage dir ref off (normalizeData data) acc, 0,
          [fetch_replay_page_params fmt before]⟩ : LoopOut) := by
    intro g
    rw [pageLoop_succ_ok server fmt dir ref off before acc g data hdone hsrv]
    by_cases hE : (normalizeData data).isEmpty
    · simp [hE]
    · have hdec : decide ((normalizeData data).length < 51) = true := decide_eq_true hshort
      simp [hE, hdec]
  refine ⟨?_, fun g => by rw [key f, key g]⟩
  rw [key f]
  by_cases hE : (normalizeData data).isEmpty <;> simp [hE]

theorem c4_short_page_ends_pagination_witness :
    (pageLoop (fun _ => Except.ok (ApiData.flat [⟨"a", 5⟩])) "f" .newer none 0 8
        none (initAcc none)).requests = [fetch_replay_page_params "f" none] :=
  (c4_short_page_ends_pagination (fun _ => Except.ok (ApiData.flat [⟨"a", 5⟩]))
    "f" .newer none 0 none (initAcc none) (ApiData.flat [⟨"a", 5⟩]) 7
    rfl rfl (by decide)).1

/-- Claim C8: a fetch error on a page breaks that category's pagination loop
while keeping everything queued so far and counting one error; all queued ids
still go through the download phase; and no per-category error prevents the
run from processing every category (`formats_processed` always equals the
number of formats given). -/
theorem c8_fetch_error_isolated (server : Request → Except Unit ApiData)
    (fmt : String) (dir : Direction) (ref : Option Nat) (off : Int)
    (before : Option Nat) (acc : PageAcc) (f : Nat) (e : Unit)
    (hdone : acc.done = false)
    (hsrv : server (fetch_replay_page_params fmt before) = Except.error e) :
    pageLoop server fmt dir ref off (f + 1) before acc
        = ⟨acc, 1, [fetch_replay_page_params fmt before]⟩ ∧
    (∀ (server' : Request → Except Unit ApiData) (dl : String → Bool)
        (scan : String → Option Nat) (off' : Int) (formats : List String)
        (direction : Direction) (mp : Nat) (state0 : State),
      (extract_replays server' dl scan off' formats direction mp
          state0).stats.formats_processed = formats.length) ∧
    (∀ (server' : Request → Except Unit ApiData) (dl : String → Bool)
        (scan : String → Option Nat) (disk : State) (off' : Int) (state : State)
        (fmt' : String) (direction : Direction) (mp : Nat),
      (processFormat server' dl scan disk off' state fmt' direction mp).downloaded
          + (processFormat server' dl scan disk off' state fmt' direction mp).downloadErrors
        = (processFormat server' dl scan disk off' state fmt' direction mp).queued.length) := by
  refine ⟨pageLoop_succ_error server fmt dir ref off before acc f e hdone hsrv,
    fun server' dl scan off' formats direction mp state0 => ?_,
    fun server' dl scan disk off' state fmt' direction mp =>
      processFormat_download_total server' dl scan disk off' state fmt' direction mp⟩
  have h := extractGo_formats_processed server' dl scan state0 off' mp formats state0
    direction ⟨0, 0, 0⟩
  simpa [extract_replays] using h

theorem c8_fetch_error_isolated_witness :
    pageLoop (fun _ => Except.error ()) "f" .newer none 0 3 none (initAcc none)
      = ⟨initAcc none, 1, [fetch_replay_page_params "f" none]⟩ :=
  (c8_fetch_error_isolated (fun _ => Except.error ()) "f" .newer none 0 none
    (initAcc none) 2 () rfl rfl).1

/-! ### Monotonicity of the watermark commit -/

/-- The stored newest-seen value for `fmt` never decreases across a call of
`update_state_for_format` in the `newer` direction. -/
theorem update_newer_mono (state : State) (fmt : String) (nr : Option Nat)
    (v : Nat) (h : lookupState state fmt = some v) :
    ∃ w, lookupState (update_state_for_format state fmt .newer nr) fmt
        = some w ∧ v ≤ w := by
  unfold update_state_for_format
  cases nr with
  | none => exact ⟨v, by simpa [truthyOptNat] using h, le_refl v⟩
  | some ts =>
    by_cases h0 : ts = 0
    · subst h0
      exact ⟨v, by simpa [truthyOptNat] using h, le_refl v⟩
    · have htr : truthyOptNat (some ts) = true := by simp [truthyOptNat, h0]
      simp only [htr, Bool.not_true, Bool.false_eq_true, if_false, Option.getD_some, h,
        Option.isNone_some, Bool.false_or]
      by_cases hgt : ts > v
      · have hdec : decide (ts > v) = true := decide_eq_true hgt
        rw [hdec, if_pos rfl]
        exact ⟨ts, lookupState_insert_self state fmt ts, le_of_lt hgt⟩
      · have hdec : decide (ts > v) = false := decide_eq_false hgt
        rw [hdec]
        exact ⟨v, by simpa using h, le_refl v⟩

/-- The stored oldest-seen value for `fmt` never increases across a call of
`update_state_for_format` in the `older` direction. -/
theorem update_older_mono (state : State) (fmt : String) (nr : Option Nat)
    (v : Nat) (h : lookupState state (fmt ++ "_oldest") = some v) :
    ∃ w, lookupState (update_state_for_format state fmt .older nr) (fmt ++ "_oldest")
        = some w ∧ w ≤ v := by
  unfold update_state_for_format
  cases nr with
  | none => exact ⟨v, by simpa [truthyOptNat] using h, le_refl v⟩
  | some ts =>
    by_cases h0 : ts = 0
    · subst h0
      exact ⟨v, by simpa [truthyOptNat] using h, le_refl v⟩
    · have htr : truthyOptNat (some ts) = true := by simp [truthyOptNat, h0]
      simp only [htr, Bool.not_true, Bool.false_eq_true, if_false, Option.getD_some, h]
      by_cases hlt : ts < v
      · rw [if_pos hlt]
        exact ⟨ts, lookupState_insert_self state (fmt ++ "_oldest") ts, le_of_lt hlt⟩
      · rw [if_neg hlt]
        exact ⟨v, by simpa using h, le_refl v⟩

/-- During a `newer`-direction format pass the progress record is either left
alone or passed through `update_state_for_format` in the `newer` direction. -/
theorem runFormatCore_newer_state_cases (server : Request → Except Unit ApiData)
    (dl : String → Bool) (off : Int) (state : State) (fmt : String)
    (ref nr0 : Option Nat) (mp : Nat) :
    (runFormatCore server dl off state fmt .newer ref nr0 mp).state = state ∨
    ∃ nr, (runFormatCore server dl off state fmt .newer ref nr0 mp).state
        = update_state_for_format state fmt .newer nr := by
  simp only [runFormatCore]
  by_cases hu : (pageLoop server fmt .newer ref off mp none
      (initAcc nr0)).acc.format_state_updated
  · right
    refine ⟨(pageLoop server fmt .newer ref off mp none
      (initAcc nr0)).acc.new_reference_ts, ?_⟩
    simp [hu]
  · left
    simp [hu]

/-- Claim C3: `update_state_for_format` preserves the watermark ordering
invariant — the stored newest-seen value is overwritten only by a strictly
greater one and hence never decreases, the stored oldest-seen value only by a
strictly smaller one and hence never increases — and consequently a whole
`newer`-direction format pass never decreases the stored newest-seen
watermark. -/
theorem c3_update_state_watermark_monotone (state : State) (fmt : String)
    (nr : Option Nat) :
    (∀ v, lookupState state fmt = some v →
        ∃ w, lookupState (update_state_for_format state fmt .newer nr) fmt
            = some w ∧ v ≤ w) ∧
    (∀ v, lookupState state (fmt ++ "_oldest") = some v →
        ∃ w, lookupState (update_state_for_format state fmt .older nr) (fmt ++ "_oldest")
            = some w ∧ w ≤ v) ∧
    (∀ (server : Request → Except Unit ApiData) (dl : String → Bool)
        (scan : String → Option Nat) (disk : State) (off : Int) (mp : Nat) (v : Nat),
      lookupState state fmt = some v →
        ∃ w, lookupState (processFormat server dl scan disk off state fmt .newer mp).state fmt
            = some w ∧ v ≤ w) := by
  refine ⟨fun v h => update_newer_mono state fmt nr v h,
    fun v h => update_older_mono state fmt nr v h,
    fun server dl scan disk off mp v h => ?_⟩
  rcases runFormatCore_newer_state_cases server dl off state fmt
      (lookupState state fmt) (lookupState state fmt) mp with hc | ⟨nr', hc⟩
  · exact ⟨v, by simpa [processFormat, hc] using h, le_refl v⟩
  · have := update_newer_mono state fmt nr' v h
    rcases this with ⟨w, hw, hvw⟩
    exact ⟨w, by simpa [processFormat, hc] using hw, hvw⟩

theorem c3_update_state_watermark_monotone_witness :
    ∃ w, lookupState (update_state_for_format [("f", 5)] "f" .newer (some 7)) "f"
        = some w ∧ 5 ≤ w :=
  (c3_update_state_watermark_monotone [("f", 5)] "f" (some 7)).1 5 rfl

/-! ### The older-direction commit requires a successful download -/

/-- If every download fails, the `older`-direction pass leaves the progress
record untouched (lines 427-433). -/
theorem runFormatCore_older_allfail (server : Request → Except Unit ApiData)
    (dl : String → Bool) (off : Int) (state : State) (fmt : String)
    (ref nr0 : Option Nat) (mp : Nat) (hdl : ∀ rid, dl rid = false) :
    (runFormatCore server dl off state fmt .older ref nr0 mp).state = state := by
  simp only [runFormatCore]
  by_cases hu : (pageLoop server fmt .older ref off mp ref
      (initAcc nr0)).acc.format_state_updated
  · have hz := batch_download_all_fail dl hdl
      (pageLoop server fmt .older ref off mp ref (initAcc nr0)).acc.new_replay_ids
    simp [hu, hz]
  · simp [hu]

/-- `update_state_for_format state fmt .newer _` either leaves the record
alone or prepends a binding for the key `fmt`. -/
theorem update_newer_shape (state : State) (fmt : String) (nr : Option Nat) :
    update_state_for_format state fmt .newer nr = state ∨
    ∃ ts, update_state_for_format state fmt .newer nr = insertState state fmt ts := by
  unfold update_state_for_format
  cases nr with
  | none => left; simp [truthyOptNat]
  | some ts =>
    by_cases htr : truthyOptNat (some ts) = true
    · simp only [htr, Bool.not_true, Bool.false_eq_true, if_false, Option.getD_some]
      by_cases hc : ((lookupState state fmt).isNone
          || decide (ts > (lookupState state fmt).getD 0)) = true
      · right; exact ⟨ts, by rw [if_pos hc]⟩
      · left; rw [if_neg hc]
    · left
      have htr' : truthyOptNat (some ts) = false := by
        cases h : truthyOptNat (some ts)
        · rfl
        · exact absurd h htr
      simp [htr']

/-- A `newer`-direction format pass never touches the `_oldest` key. -/
theorem runFormatCore_newer_preserves_oldest (server : Request → Except Unit ApiData)
    (dl : String → Bool) (off : Int) (state : State) (fmt : String)
    (ref nr0 : Option Nat) (mp : Nat) :
    lookupState (runFormatCore server dl off state fmt .newer ref nr0 mp).state
        (fmt ++ "_oldest")
      = lookupState state (fmt ++ "_oldest") := by
  rcases runFormatCore_newer_state_cases server dl off state fmt ref nr0 mp with hc | ⟨nr, hc⟩
  · rw [hc]
  · rw [hc]
    rcases update_newer_shape state fmt nr with h2 | ⟨ts, h2⟩
    · rw [h2]
    · rw [h2]
      exact lookupState_insert_ne state fmt (fmt ++ "_oldest") ts (oldest_key_ne fmt)

/-- Claim C5: in an `older`-direction run, if every queued download fails the
stored oldest-seen watermark for the category is unchanged after the pass
(the commit of lines 427-433 is skipped; a fallback-to-`newer` pass can only
touch the newest-seen key). -/
theorem c5_older_commit_requires_download (server : Request → Except Unit ApiData)
    (dl : String → Bool) (scan : String → Option Nat) (disk : State) (off : Int)
    (state : State) (fmt : String) (mp : Nat) (hdl : ∀ rid, dl rid = false) :
    lookupState (processFormat server dl scan disk off state fmt .older mp).state
        (fmt ++ "_oldest")
      = lookupState state (fmt ++ "_oldest") := by
  simp only [processFormat]
  split_ifs with htr
  · rw [runFormatCore_older_allfail server dl off state fmt
      (find_oldest_timestamp disk scan fmt) none mp hdl]
  · exact runFormatCore_newer_preserves_oldest server dl off state fmt none none mp

theorem c5_older_commit_requires_download_witness :
    lookupState (processFormat (fun _ => Except.ok (ApiData.flat [⟨"x", 4⟩]))
        (fun _ => false) (fun _ => none) [("f_oldest", 9)] 0 [("f_oldest", 9)]
        "f" .older 3).state ("f" ++ "_oldest")
      = lookupState [("f_oldest", 9)] ("f" ++ "_oldest") :=
  c5_older_commit_requires_download (fun _ => Except.ok (ApiData.flat [⟨"x", 4⟩]))
    (fun _ => false) (fun _ => none) [("f_oldest", 9)] 0 [("f_oldest", 9)] "f" 3
    (fun _ => rfl)

/-- Claim C1: in a `newer` run with a stored nonzero watermark `T`, the first
page containing an item with `uploadtime ≤ T` ends the run after exactly one
request; classification stops at the first such item, and only the ids of the
prefix of items strictly above `T` are queued — in particular an item with
`uploadtime` exactly `T` is never queued. -/
theorem c1_newer_watermark_boundary (server : Request → Except Unit ApiData)
    (fmt : String) (off : Int) (T : Nat) (f : Nat) (data : ApiData)
    (hT : T ≠ 0)
    (hsrv : server (fetch_replay_page_params fmt none) = Except.ok data)
    (hhit : (normalizeData data).any (fun r => r.uploadtime ≤ T) = true) :
    (pageLoop server fmt .newer (some T) off (f + 1) none (initAcc (some T))).requests
        = [fetch_replay_page_params fmt none] ∧
    (pageLoop server fmt .newer (some T) off (f + 1) none (initAcc (some T))).acc.done
        = true ∧
    (pageLoop server fmt .newer (some T) off (f + 1) none (initAcc (some T))).acc.new_replay_ids
        = ((normalizeData data).takeWhile (fun r => T < r.uploadtime)).map Item.id ∧
    ∀ r ∈ (normalizeData data).takeWhile (fun r => T < r.uploadtime),
        T < r.uploadtime := by
  have hne : (normalizeData data).isEmpty = false := by
    cases hnd : normalizeData data with
    | nil => rw [hnd] at hhit; simp at hhit
    | cons a as => simp
  rcases classifyPage_newer_char off T hT (normalizeData data) (initAcc (some T)) rfl
    with ⟨hids, hdone⟩
  have hdone' : (classifyPage .newer (some T) off (normalizeData data)
      (initAcc (some T))).done = true := by rw [hdone]; exact hhit
  rw [pageLoop_succ_ok server fmt .newer (some T) off none (initAcc (some T)) f data
    rfl hsrv]
  refine ⟨by simp [hne, hdone'], by simp [hne, hdone'], ?_, ?_⟩
  · simp only [hne, Bool.false_eq_true, if_false, hdone', Bool.true_or, if_true]
    rw [hids]
    simp [initAcc]
  · intro r hr
    have h2 := @List.mem_takeWhile_imp Item (fun x : Item => decide (T < x.uploadtime))
      (normalizeData data) r hr
    exact of_decide_eq_true h2

theorem c1_newer_watermark_boundary_witness :
    (pageLoop (fun _ => Except.ok (ApiData.flat [⟨"a", 150⟩, ⟨"b", 100⟩, ⟨"c", 90⟩]))
        "f" .newer (some 100) 0 1 none (initAcc (some 100))).requests
      = [fetch_replay_page_params "f" none] ∧
    (pageLoop (fun _ => Except.ok (ApiData.flat [⟨"a", 150⟩, ⟨"b", 100⟩, ⟨"c", 90⟩]))
        "f" .newer (some 100) 0 1 none (initAcc (some 100))).acc.done = true ∧
    (pageLoop (fun _ => Except.ok (ApiData.flat [⟨"a", 150⟩, ⟨"b", 100⟩, ⟨"c", 90⟩]))
        "f" .newer (some 100) 0 1 none (initAcc (some 100))).acc.new_replay_ids
      = ["a"] := by
  have h := c1_newer_watermark_boundary
    (fun _ => Except.ok (ApiData.flat [⟨"a", 150⟩, ⟨"b", 100⟩, ⟨"c", 90⟩]))
    "f" 0 100 0 (ApiData.flat [⟨"a", 150⟩, ⟨"b", 100⟩, ⟨"c", 90⟩])
    (by decide) rfl (by decide)
  exact ⟨h.1, h.2.1, by rw [h.2.2.1]; rfl⟩

/-! ### Partition dates recorded by the classification loop -/

/-- The classification loop keeps `replay_dates` in lockstep with the ghost
item log: every processed item is dated with `datetime.fromtimestamp`
truncation of its `uploadtime` under the host offset `off`. -/
theorem classifyPage_dates (dir : Direction) (ref : Option Nat) (off : Int) :
    ∀ (l : List Item) (acc : PageAcc),
      acc.replay_dates
          = acc.processedItems.map
              (fun x => (x.id, pythonFromtimestampDate off x.uploadtime)) →
      (classifyPage dir ref off l acc).replay_dates
          = (classifyPage dir ref off l acc).processedItems.map
              (fun x => (x.id, pythonFromtimestampDate off x.uploadtime)) := by
  intro l
  induction l with
  | nil => intro acc h; simpa [classifyPage] using h
  | cons rep rest ih =>
    intro acc h
    cases dir with
    | newer =>
      by_cases hstop : seenStop ref rep.uploadtime = true
      · simp [classifyPage, hstop, h]
      · have hstop' : seenStop ref rep.uploadtime = false := by
          cases hs : seenStop ref rep.uploadtime
          · rfl
          · exact absurd hs hstop
        simp only [classifyPage, hstop', Bool.false_eq_true, if_false]
        exact ih _ (by simp [newerTrackStep_dates, newerTrackStep_processed, h])
    | older =>
      simp only [classifyPage]
      exact ih _ (by simp [olderTrackStep_dates, olderTrackStep_processed, h])

/-- The lockstep invariant survives the whole pagination loop. -/
theorem pageLoop_dates (server : Request → Except Unit ApiData) (fmt : String)
    (dir : Direction) (ref : Option Nat) (off : Int) :
    ∀ (fuel : Nat) (before : Option Nat) (acc : PageAcc),
      acc.replay_dates
          = acc.processedItems.map
              (fun x => (x.id, pythonFromtimestampDate off x.uploadtime)) →
      (pageLoop server fmt dir ref off fuel before acc).acc.replay_dates
          = (pageLoop server fmt dir ref off fuel before acc).acc.processedItems.map
              (fun x => (x.id, pythonFromtimestampDate off x.uploadtime)) := by
  intro fuel
  induction fuel with
  | zero => intro before acc h; simpa [pageLoop] using h
  | succ f ih =>
    intro before acc h
    by_cases hdone : acc.done = true
    · simpa [pageLoop, hdone] using h
    · have hdone' : acc.done = false := by
        cases hd : acc.done
        · rfl
        · exact absurd hd hdone
      cases hsrv : server (fetch_replay_page_params fmt before) with
      | error e =>
        rw [pageLoop_succ_error server fmt dir ref off before acc f e hdone' hsrv]
        exact h
      | ok data =>
        rw [pageLoop_succ_ok server fmt dir ref off before acc f data hdone' hsrv]
        by_cases hE : (normalizeData data).isEmpty
        · simpa [hE] using h
        · have hcl := classifyPage_dates dir ref off (normalizeData data) acc h
          by_cases hstop : ((classifyPage dir ref off (normalizeData data) acc).done
              || decide ((normalizeData data).length < 51)) = true
          · simpa [hE, hstop] using hcl
          · have hstop' : ((classifyPage dir ref off (normalizeData data) acc).done
                || decide ((normalizeData data).length < 51)) = false := by
              cases hs : ((classifyPage dir ref off (normalizeData data) acc).done
                  || decide ((normalizeData data).length < 51))
              · rfl
              · exact absurd hs hstop
            simp only [hE, Bool.false_eq_true, if_false, hstop']
            exact ih _ _ hcl

/-- Claim C6, amended: the date partition recorded for every fetched item is
the calendar date of its `uploadtime` truncated in the host's *local*
timezone (`datetime.fromtimestamp`, line 359); it coincides with the UTC
truncation the spec prescribes exactly when the host offset is zero. -/
theorem c6_partition_date_is_local (server : Request → Except Unit ApiData)
    (fmt : String) (dir : Direction) (ref : Option Nat) (off : Int)
    (fuel : Nat) (before nr : Option Nat) :
    (pageLoop server fmt dir ref off fuel before (initAcc nr)).acc.replay_dates
        = (pageLoop server fmt dir ref off fuel before (initAcc nr)).acc.processedItems.map
            (fun x => (x.id, pythonFromtimestampDate off x.uploadtime)) ∧
    ∀ ts : Nat, pythonFromtimestampDate 0 ts = utcDateOf ts := by
  refine ⟨pageLoop_dates server fmt dir ref off fuel before (initAcc nr) ?_, fun ts => ?_⟩
  · simp [initAcc]
  · simp [pythonFromtimestampDate, utcDateOf]

/-- Claim C6, counterexample to the claim as stated: on a host five hours west
of UTC (offset `-18000`, e.g. US Eastern standard time), the item uploaded at
epoch second `3600` is partitioned under `1969-12-31`, while UTC truncation
of its `uploadtime` gives `1970-01-01`. -/
theorem c6_partition_date_not_utc :
    (classifyPage .newer none (-18000) [⟨"r1", 3600⟩] (initAcc none)).replay_dates
        = [("r1", ⟨1969, 12, 31⟩)] ∧
    utcDateOf 3600 = ⟨1970, 1, 1⟩ ∧
    (classifyPage .newer none (-18000) [⟨"r1", 3600⟩] (initAcc none)).replay_dates
        ≠ [("r1", utcDateOf 3600)] := by
  refine ⟨by decide, by decide, by decide⟩

/-! ### The newer-run idempotence development -/

/-- Every item the spec-modelled listing endpoint serves comes from its fixed
item list. -/
theorem listingServer_mem (L : List Item) (req : Request) (data : ApiData)
    (hs : listingServer L req = Except.ok data) :
    ∀ x ∈ normalizeData data, x ∈ L := by
  cases hb : req.before with
  | none =>
    rw [listingServer, hb] at hs
    injection hs with h1
    subst h1
    exact fun x hx => List.take_subset 51 L hx
  | some b =>
    rw [listingServer, hb] at hs
    injection hs with h1
    subst h1
    intro x hx
    exact List.mem_of_mem_filter (List.take_subset 51 _ hx)

/-- In a descending-by-`uploadtime` listing the head carries the maximum. -/
theorem desc_head_bound (h : Item) (t : List Item)
    (hdesc : (h :: t).Pairwise (fun a b => b.uploadtime ≤ a.uploadtime)) :
    ∀ x ∈ h :: t, x.uploadtime ≤ h.uploadtime := by
  intro x hx
  rcases List.mem_cons.mp hx with rfl | hx
  · exact le_refl _
  · exact (List.pairwise_cons.mp hdesc).1 x hx

/-- Once the running candidate holds the maximum `M` and the updated flag is
set, an item at or below `M` leaves both unchanged. -/
theorem newerTrackStep_keep (acc : PageAcc) (M t : Nat)
    (h1 : acc.new_reference_ts = some M) (h2 : acc.format_state_updated = true)
    (hle : t ≤ M) :
    (newerTrackStep acc t).new_reference_ts = some M ∧
    (newerTrackStep acc t).format_state_updated = true := by
  by_cases h0 : M = 0
  · subst h0
    have ht : t = 0 := Nat.le_zero.mp hle
    subst ht
    simp [newerTrackStep, h1]
  · have hngt : ¬ (M < t) := Nat.not_lt.mpr hle
    simp [newerTrackStep, h1, h0, hngt, h2]

/-- When the stop of line 364 does not fire on an item, the tracking step of
lines 370-372 always adopts that item's `uploadtime` as the candidate. -/
theorem newerTrackStep_first (acc : PageAcc) (r : Option Nat) (t : Nat)
    (h1 : acc.new_reference_ts = r) (hstop : seenStop r t = false) :
    (newerTrackStep acc t).new_reference_ts = some t ∧
    (newerTrackStep acc t).format_state_updated = true := by
  cases r with
  | none => simp [newerTrackStep, h1]
  | some v =>
    by_cases h0 : v = 0
    · subst h0
      simp [newerTrackStep, h1]
    · have hgt : v < t := by
        by_contra hc
        have hle : t ≤ v := Nat.le_of_not_lt hc
        simp [seenStop, h0, hle] at hstop
      simp [newerTrackStep, h1, h0, hgt]

/-- Classifying any page of items bounded by `M` preserves an established
candidate `M` and the updated flag. -/
theorem classifyPage_newer_keep (ref : Option Nat) (off : Int) (M : Nat) :
    ∀ (l : List Item) (acc : PageAcc), (∀ x ∈ l, x.uploadtime ≤ M) →
      acc.new_reference_ts = some M → acc.format_state_updated = true →
      (classifyPage .newer ref off l acc).new_reference_ts = some M ∧
      (classifyPage .newer ref off l acc).format_state_updated = true := by
  intro l
  induction l with
  | nil => intro acc _ h1 h2; simpa [classifyPage] using ⟨h1, h2⟩
  | cons rep rest ih =>
    intro acc hb h1 h2
    by_cases hstop : seenStop ref rep.uploadtime = true
    · simp [classifyPage, hstop, h1, h2]
    · have hstop' : seenStop ref rep.uploadtime = false := by
        cases hs : seenStop ref rep.uploadtime
        · rfl
        · exact absurd hs hstop
      simp only [classifyPage, hstop', Bool.false_eq_true, if_false]
      have hk := newerTrackStep_keep
        { acc with
          replay_dates := (rep.id, pythonFromtimestampDate off rep.uploadtime)
            :: acc.replay_dates
          processedItems := rep :: acc.processedItems } M rep.uploadtime h1 h2
        (hb rep (List.mem_cons_self rep rest))
      exact ih _ (fun x hx => hb x (List.mem_cons_of_mem rep hx))
        (by simpa using hk.1) (by simpa using hk.2)

/-- The pagination loop preserves an established candidate `M` with the
updated flag set, provided the server only ever serves items bounded by `M`. -/
theorem pageLoop_newer_keep (server : Request → Except Unit ApiData) (fmt : String)
    (ref : Option Nat) (off : Int) (M : Nat)
    (hb : ∀ req data, server req = Except.ok data →
        ∀ x ∈ normalizeData data, x.uploadtime ≤ M) :
    ∀ (fuel : Nat) (before : Option Nat) (acc : PageAcc),
      acc.new_reference_ts = some M → acc.format_state_updated = true →
      (pageLoop server fmt .newer ref off fuel before acc).acc.new_reference_ts = some M ∧
      (pageLoop server fmt .newer ref off fuel before acc).acc.format_state_updated = true := by
  intro fuel
  induction fuel with
  | zero => intro before acc h1 h2; simpa [pageLoop] using ⟨h1, h2⟩
  | succ f ih =>
    intro before acc h1 h2
    by_cases hdone : acc.done = true
    · simpa [pageLoop, hdone] using ⟨h1, h2⟩
    · have hdone' : acc.done = false := by
        cases hd : acc.done
        · rfl
        · exact absurd hd hdone
      cases hsrv : server (fetch_replay_page_params fmt before) with
      | error e =>
        rw [pageLoop_succ_error server fmt .newer ref off before acc f e hdone' hsrv]
        exact ⟨h1, h2⟩
      | ok data =>
        rw [pageLoop_succ_ok server fmt .newer ref off before acc f data hdone' hsrv]
        by_cases hE : (normalizeData data).isEmpty
        · simpa [hE] using ⟨h1, h2⟩
        · have hcl := classifyPage_newer_keep ref off M (normalizeData data) acc
            (hb _ data hsrv) h1 h2
          by_cases hstop : ((classifyPage .newer ref off (normalizeData data) acc).done
              || decide ((normalizeData data).length < 51)) = true
          · simpa [hE, hstop] using hcl
          · have hstop' : ((classifyPage .newer ref off (normalizeData data) acc).done
                || decide ((normalizeData data).length < 51)) = false := by
              cases hs : ((classifyPage .newer ref off (normalizeData data) acc).done
                  || decide ((normalizeData data).length < 51))
              · rfl
              · exact absurd hs hstop
            simp only [hE, Bool.false_eq_true, if_false, hstop']
            exact ih _ _ hcl.1 hcl.2

/-- When the stop fires on the head of a page, classification ends there:
tracking fields and queued ids are untouched and `done` is set. -/
theorem classifyPage_newer_stop_head (ref0 : Option Nat) (off : Int) (hd : Item)
    (rest : List Item) (acc : PageAcc)
    (hstop : seenStop ref0 hd.uploadtime = true) :
    (classifyPage .newer ref0 off (hd :: rest) acc).new_reference_ts
        = acc.new_reference_ts ∧
    (classifyPage .newer ref0 off (hd :: rest) acc).format_state_updated
        = acc.format_state_updated ∧
    (classifyPage .newer ref0 off (hd :: rest) acc).done = true ∧
    (classifyPage .newer ref0 off (hd :: rest) acc).new_replay_ids
        = acc.new_replay_ids := by
  simp [classifyPage, hstop]

/-- When the stop does not fire on the head of a page whose tail is bounded by
the head's `uploadtime`, classification adopts the head's `uploadtime` as the
candidate watermark and sets the updated flag. -/
theorem classifyPage_newer_head (ref0 : Option Nat) (off : Int) (hd : Item)
    (rest : List Item) (acc : PageAcc) (hacc : acc.new_reference_ts = ref0)
    (hstop : seenStop ref0 hd.uploadtime = false)
    (hb : ∀ x ∈ rest, x.uploadtime ≤ hd.uploadtime) :
    (classifyPage .newer ref0 off (hd :: rest) acc).new_reference_ts
        = some hd.uploadtime ∧
    (classifyPage .newer ref0 off (hd :: rest) acc).format_state_updated = true := by
  simp only [classifyPage, hstop, Bool.false_eq_true, if_false]
  have hfirst := newerTrackStep_first
    { acc with
      replay_dates := (hd.id, pythonFromtimestampDate off hd.uploadtime)
        :: acc.replay_dates
      processedItems := hd :: acc.processedItems } ref0 hd.uploadtime
    (by simpa using hacc) hstop
  exact classifyPage_newer_keep ref0 off hd.uploadtime rest _ hb
    (by simpa using hfirst.1) (by simpa using hfirst.2)

/-- The first page of a fresh `newer` pass against the canonical descending
listing either stops at the head (leaving candidate and flag untouched) or
establishes the head's `uploadtime` — the global maximum — as the candidate
for the remainder of the pass. -/
theorem pageLoop_run1_cases (hd : Item) (t : List Item) (fmt : String)
    (ref0 : Option Nat) (off : Int) (f : Nat)
    (hdesc : (hd :: t).Pairwise (fun a b => b.uploadtime ≤ a.uploadtime)) :
    ((pageLoop (listingServer (hd :: t)) fmt .newer ref0 off (f + 1) none
        (initAcc ref0)).acc.format_state_updated = false ∧
      (pageLoop (listingServer (hd :: t)) fmt .newer ref0 off (f + 1) none
        (initAcc ref0)).acc.new_reference_ts = ref0 ∧
      seenStop ref0 hd.uploadtime = true) ∨
    ((pageLoop (listingServer (hd :: t)) fmt .newer ref0 off (f + 1) none
        (initAcc ref0)).acc.format_state_updated = true ∧
      (pageLoop (listingServer (hd :: t)) fmt .newer ref0 off (f + 1) none
        (initAcc ref0)).acc.new_reference_ts = some hd.uploadtime ∧
      seenStop ref0 hd.uploadtime = false) := by
  have hbound : ∀ x ∈ hd :: t, x.uploadtime ≤ hd.uploadtime := desc_head_bound hd t hdesc
  have hsrv : listingServer (hd :: t) (fetch_replay_page_params fmt none)
      = Except.ok (ApiData.flat ((hd :: t).take 51)) := rfl
  rw [pageLoop_succ_ok (listingServer (hd :: t)) fmt .newer ref0 off none (initAcc ref0)
    f (ApiData.flat ((hd :: t).take 51)) rfl hsrv]
  have hnorm : normalizeData (ApiData.flat ((hd :: t).take 51)) = hd :: t.take 50 := rfl
  rw [hnorm]
  have hne : (hd :: t.take 50).isEmpty = false := rfl
  simp only [hne, Bool.false_eq_true, if_false]
  by_cases hstop : seenStop ref0 hd.uploadtime = true
  · left
    rcases classifyPage_newer_stop_head ref0 off hd (t.take 50) (initAcc ref0) hstop
      with ⟨h1, h2, h3, _⟩
    have hcond : ((classifyPage .newer ref0 off (hd :: t.take 50) (initAcc ref0)).done
        || decide ((hd :: t.take 50).length < 51)) = true := by
      rw [h3]; simp
    rw [if_pos hcond]
    exact ⟨h2.trans rfl, h1.trans rfl, hstop⟩
  · have hstop' : seenStop ref0 hd.uploadtime = false := by
      cases hs : seenStop ref0 hd.uploadtime
      · rfl
      · exact absurd hs hstop
    right
    have hhead := classifyPage_newer_head ref0 off hd (t.take 50) (initAcc ref0) rfl
      hstop' (fun x hx => hbound x (List.mem_cons_of_mem hd (List.take_subset 50 t hx)))
    by_cases hcond : ((classifyPage .newer ref0 off (hd :: t.take 50) (initAcc ref0)).done
        || decide ((hd :: t.take 50).length < 51)) = true
    · rw [if_pos hcond]
      exact ⟨hhead.2, hhead.1, hstop'⟩
    · rw [if_neg hcond]
      have hb2 : ∀ req data, listingServer (hd :: t) req = Except.ok data →
          ∀ x ∈ normalizeData data, x.uploadtime ≤ hd.uploadtime :=
        fun req data hs x hx => hbound x (listingServer_mem (hd :: t) req data hs x hx)
      have hk := pageLoop_newer_keep (listingServer (hd :: t)) fmt ref0 off
        hd.uploadtime hb2 f
        (some (((hd :: t.take 50).getLastD default).uploadtime))
        (classifyPage .newer ref0 off (hd :: t.take 50) (initAcc ref0))
        hhead.1 hhead.2
      exact ⟨hk.2, hk.1, hstop'⟩

/-- With a zero `max_pages` budget a `newer` pass fetches nothing, downloads
nothing, and leaves the record unchanged. -/
theorem processFormat_newer_mp0 (server : Request → Except Unit ApiData)
    (dl : String → Bool) (scan : String → Option Nat) (disk : State) (off : Int)
    (state : State) (fmt : String) :
    (processFormat server dl scan disk off state fmt .newer 0).downloaded = 0 ∧
    (processFormat server dl scan disk off state fmt .newer 0).state = state := by
  simp [processFormat, runFormatCore, pageLoop, initAcc, batch_download_replays]

/-- Against an empty listing a `newer` pass downloads nothing and leaves the
record unchanged (the empty page breaks the loop at line 353). -/
theorem processFormat_newer_emptyL (dl : String → Bool) (scan : String → Option Nat)
    (disk : State) (off : Int) (state : State) (fmt : String) (mp : Nat) :
    (processFormat (listingServer []) dl scan disk off state fmt .newer mp).downloaded = 0 ∧
    (processFormat (listingServer []) dl scan disk off state fmt .newer mp).state = state := by
  cases mp with
  | zero => exact processFormat_newer_mp0 (listingServer []) dl scan disk off state fmt
  | succ f =>
    have hsrv : listingServer [] (fetch_replay_page_params fmt none)
        = Except.ok (ApiData.flat []) := rfl
    simp only [processFormat, runFormatCore]
    rw [pageLoop_succ_ok (listingServer []) fmt .newer (lookupState state fmt) off none
      (initAcc (lookupState state fmt)) f (ApiData.flat []) rfl hsrv]
    simp [normalizeData, initAcc, batch_download_replays]

/-- A second `newer` pass whose stored watermark `W` dominates the head of the
descending listing stops at the head, downloads nothing, and leaves the record
unchanged. -/
theorem run2_zero (state : State) (fmt : String) (W : Nat) (hd : Item)
    (t : List Item) (dl : String → Bool) (scan : String → Option Nat)
    (disk : State) (off : Int) (mp : Nat)
    (hW : W ≠ 0) (hlook : lookupState state fmt = some W)
    (hle : hd.uploadtime ≤ W) :
    (processFormat (listingServer (hd :: t)) dl scan disk off state fmt .newer
        mp).downloaded = 0 ∧
    (processFormat (listingServer (hd :: t)) dl scan disk off state fmt .newer
        mp).state = state := by
  cases mp with
  | zero => exact processFormat_newer_mp0 (listingServer (hd :: t)) dl scan disk off state fmt
  | succ f =>
    have hsrv : listingServer (hd :: t) (fetch_replay_page_params fmt none)
        = Except.ok (ApiData.flat ((hd :: t).take 51)) := rfl
    simp only [processFormat, runFormatCore, hlook]
    rw [pageLoop_succ_ok (listingServer (hd :: t)) fmt .newer (some W) off none
      (initAcc (some W)) f (ApiData.flat ((hd :: t).take 51)) rfl hsrv]
    have hnorm : normalizeData (ApiData.flat ((hd :: t).take 51)) = hd :: t.take 50 := rfl
    rw [hnorm]
    have hstop : seenStop (some W) hd.uploadtime = true := by
      simp [seenStop, hW, hle]
    rcases classifyPage_newer_stop_head (some W) off hd (t.take 50) (initAcc (some W))
      hstop with ⟨_, h2, h3, h4⟩
    have hne : (hd :: t.take 50).isEmpty = false := rfl
    have hcond : ((classifyPage .newer (some W) off (hd :: t.take 50)
        (initAcc (some W))).done || decide ((hd :: t.take 50).length < 51)) = true := by
      rw [h3]; simp
    simp only [hne, Bool.false_eq_true, if_false]
    rw [if_pos hcond]
    have hids : (classifyPage .newer (some W) off (hd :: t.take 50)
        (initAcc (some W))).new_replay_ids = [] := h4
    have hupd : (classifyPage .newer (some W) off (hd :: t.take 50)
        (initAcc (some W))).format_state_updated = false := h2
    refine ⟨?_, ?_⟩
    · rw [hids]
      rfl
    · rw [hupd]
      simp

/-- After a first `newer` pass against a nonempty descending listing, a truthy
stored watermark dominates the head (the listing's maximum `uploadtime`). -/
theorem run1_bound (state0 : State) (fmt : String) (hd : Item) (t : List Item)
    (dl : String → Bool) (scan : String → Option Nat) (disk : State) (off : Int)
    (f : Nat) (W : Nat)
    (hdesc : (hd :: t).Pairwise (fun a b => b.uploadtime ≤ a.uploadtime))
    (hst : lookupState (processFormat (listingServer (hd :: t)) dl scan disk off
        state0 fmt .newer (f + 1)).state fmt = some W)
    (hW : W ≠ 0) : hd.uploadtime ≤ W := by
  simp only [processFormat, runFormatCore] at hst
  rcases pageLoop_run1_cases hd t fmt (lookupState state0 fmt) off f hdesc with
    ⟨hu, hr, hs⟩ | ⟨hu, hr, hs⟩
  · rw [if_neg (by simp [hu])] at hst
    rw [hst] at hs
    simp only [seenStop, Bool.and_eq_true, bne_iff_ne, decide_eq_true_eq] at hs
    exact hs.2
  · rw [if_pos hu, hr] at hst
    by_cases h0 : hd.uploadtime = 0
    · rw [h0] at hst
      have hno : update_state_for_format state0 fmt .newer (some 0) = state0 := by
        simp [update_state_for_format, truthyOptNat]
      rw [hno] at hst
      rw [hst, h0] at hs
      simp [seenStop, hW] at hs
    · have htr : truthyOptNat (some hd.uploadtime) = true := by
        simp [truthyOptNat, h0]
      simp only [update_state_for_format, htr, Bool.not_true, Bool.false_eq_true,
        if_false, Option.getD_some] at hst
      by_cases hc : ((lookupState state0 fmt).isNone
          || decide (hd.uploadtime > (lookupState state0 fmt).getD 0)) = true
      · rw [if_pos hc] at hst
        rw [lookupState_insert_self] at hst
        injection hst with hinj
        omega
      · rw [if_neg hc] at hst
        rw [hst] at hc
        simp at hc
        exact hc

/-- Claim C2: with the remote listing fixed (same descending items both
times), a second `newer` pass started from the record the first pass produced
downloads zero items and leaves the record — in particular the stored
newest-seen watermark — unchanged, provided the first pass left a nonzero
watermark. -/
theorem c2_newer_idempotent (L : List Item) (dl1 dl2 : String → Bool)
    (scan : String → Option Nat) (disk state0 : State) (fmt : String) (off : Int)
    (mp : Nat) (W : Nat)
    (hdesc : L.Pairwise (fun a b => b.uploadtime ≤ a.uploadtime))
    (hW : W ≠ 0)
    (hst : lookupState (processFormat (listingServer L) dl1 scan disk off state0
        fmt .newer mp).state fmt = some W) :
    (processFormat (listingServer L) dl2 scan disk off
        (processFormat (listingServer L) dl1 scan disk off state0 fmt .newer mp).state
        fmt .newer mp).downloaded = 0 ∧
    (processFormat (listingServer L) dl2 scan disk off
        (processFormat (listingServer L) dl1 scan disk off state0 fmt .newer mp).state
        fmt .newer mp).state
      = (processFormat (listingServer L) dl1 scan disk off state0 fmt .newer mp).state := by
  cases L with
  | nil =>
    exact processFormat_newer_emptyL dl2 scan disk off _ fmt mp
  | cons hd t =>
    cases mp with
    | zero =>
      exact processFormat_newer_mp0 (listingServer (hd :: t)) dl2 scan disk off _ fmt
    | succ f =>
      have hb := run1_bound state0 fmt hd t dl1 scan disk off f W hdesc hst hW
      exact run2_zero _ fmt W hd t dl2 scan disk off (f + 1) hW hst hb

theorem c2_newer_idempotent_witness :
    (processFormat (listingServer [⟨"r1", 100⟩]) (fun _ => true) (fun _ => none) [] 0
        (processFormat (listingServer [⟨"r1", 100⟩]) (fun _ => true) (fun _ => none)
          [] 0 [] "f" .newer 2).state
        "f" .newer 2).downloaded = 0 ∧
    (processFormat (listingServer [⟨"r1", 100⟩]) (fun _ => true) (fun _ => none) [] 0
        (processFormat (listingServer [⟨"r1", 100⟩]) (fun _ => true) (fun _ => none)
          [] 0 [] "f" .newer 2).state
        "f" .newer 2).state
      = (processFormat (listingServer [⟨"r1", 100⟩]) (fun _ => true) (fun _ => none)
          [] 0 [] "f" .newer 2).state :=
  c2_newer_idempotent [⟨"r1", 100⟩] (fun _ => true) (fun _ => true) (fun _ => none)
    [] [] "f" 0 2 100 (by simp) (by decide) (by rfl)
